import Mathlib

/-!
Shallow embedding of the task normalization and column-bucketing pipeline of
`src/scripts/build.py` (a Todoist → static HTML board builder), together with
theorems settling the specification claims about it.

Python records are heterogeneous (SDK objects or dicts); field values are
modelled by `PyVal`.  Machine-level aspects that the script never exercises
(floats, unicode digit parsing, underscore-separated int literals) are outside
the model; all functions used below are total and executable.
-/

namespace Build

/-- Model of a Python field value as it occurs in this script: `None`, an
`int`, or a `str`. -/
inductive PyVal where
  | vNone
  | vInt (n : Int)
  | vStr (s : String)
deriving DecidableEq, Repr

/-- Python truthiness of a `PyVal`: `None` is falsy, `0` is falsy, `""` is
falsy, everything else truthy. -/
def pyTruthy : PyVal → Bool
  | .vNone => false
  | .vInt n => n != 0
  | .vStr s => s != ""

/-- Python `str()` of a `PyVal` (`str(None) = "None"`). -/
def pyStrOf : PyVal → String
  | .vNone => "None"
  | .vInt n => toString n
  | .vStr s => s

/-- Python `str.strip()` on a character list: drop leading and trailing
whitespace. -/
def trimChars (l : List Char) : List Char :=
  ((l.dropWhile Char.isWhitespace).reverse.dropWhile Char.isWhitespace).reverse

/-- Python `str.strip()`. -/
def pyStrip (s : String) : String := String.mk (trimChars s.data)

/-- Value of a nonempty all-digit character list, if it is one. -/
def digitsToNat (l : List Char) : Option Nat :=
  if l ≠ [] ∧ l.all Char.isDigit then
    some (l.foldl (fun acc c => acc * 10 + (c.toNat - '0'.toNat)) 0)
  else none

/-- Python `int(s)` on a string: optional surrounding whitespace, an optional
sign, then decimal digits; `none` when the call would raise `ValueError`. -/
def parsePyInt (s : String) : Option Int :=
  match trimChars s.data with
  | '-' :: rest => (digitsToNat rest).map (fun n => -(n : Int))
  | '+' :: rest => (digitsToNat rest).map (fun n => (n : Int))
  | rest => (digitsToNat rest).map (fun n => (n : Int))

/-- Python `int(v)` on a field value; `none` when the call would raise
(`int(None)`, non-numeric strings). -/
def pyToInt : PyVal → Option Int
  | .vNone => none
  | .vInt n => some n
  | .vStr s => parsePyInt s

/-- `html.escape` on one character (quote=True: `&`, `<`, `>`, `"`, `'`). -/
def escapeChar (c : Char) : List Char :=
  if c = '&' then "&amp;".data
  else if c = '<' then "&lt;".data
  else if c = '>' then "&gt;".data
  else if c = '"' then "&quot;".data
  else if c = '\'' then "&#x27;".data
  else [c]

/-- `html.escape` (with the default quote=True). -/
def escape (s : String) : String := String.mk (s.data.map escapeChar).flatten

/-! ### `_get`: the field accessor (`_get(obj, attr, default)`)

A record is modelled by what Python's attribute protocol can do for a given
name (`attrs`) and by whether the record is a `dict` (`dict`).  Attribute
access on a name either yields a value, raises `AttributeError` (the name is
absent), or raises some other exception (e.g. a failing property).  Python 3's
`hasattr` swallows only `AttributeError`; any other exception escapes it. -/

inductive AttrOutcome where
  | val (v : PyVal)
  | attrErr
  | otherErr
deriving DecidableEq, Repr

structure PyRecord where
  attrs : String → AttrOutcome
  dict : Option (String → Option PyVal)

/-- Model of `_get(obj, attr, default)`: `hasattr` probe (which re-raises any
non-`AttributeError` exception), then `getattr`, then the `dict` branch, then
the default.  `Except.error ()` marks an exception propagating to the
caller. -/
def pyGet (r : PyRecord) (attr : String) (dflt : PyVal) : Except Unit PyVal :=
  match r.attrs attr with
  | .val v => .ok v
  | .otherErr => .error ()
  | .attrErr =>
    match r.dict with
    | some m => .ok ((m attr).getD dflt)
    | none => .ok dflt

/-! ### `_as_list`: the record flattener -/

/-- An element of the iterable passed to `_as_list`: either a non-list value
or itself a Python list (whose elements may again be of either shape). -/
inductive Item (α : Type) where
  | atom (a : α)
  | nested (l : List (Item α))

/-- Model of `_as_list`: one level of flattening, `extend` for list elements,
`append` otherwise, order preserved. -/
def asList {α : Type} : List (Item α) → List (Item α)
  | [] => []
  | .atom a :: rest => .atom a :: asList rest
  | .nested l :: rest => l ++ asList rest

/-- What a single element contributes to the output of `_as_list`. -/
def itemContrib {α : Type} : Item α → List (Item α)
  | .atom a => [.atom a]
  | .nested l => l

/-! ### `_format_due`: the due-date formatter -/

/-- Model of the `due` field: absent/`None`, an SDK object with optional
`string`/`datetime`/`date` sub-fields (an object is always truthy), a dict
with the same optional keys (plus possibly unrelated keys, `extra`; a dict is
truthy iff nonempty), or any other value.  A sub-field holding `some ""` is
present but falsy. -/
inductive DueVal where
  | absent
  | obj (string datetime date : Option String)
  | dict (string datetime date : Option String) (extra : Bool)
  | other (truthy : Bool)
deriving DecidableEq, Repr

/-- Python truthiness of a due field. -/
def dueTruthy : DueVal → Bool
  | .absent => false
  | .obj _ _ _ => true
  | .dict s dt d extra => s.isSome || dt.isSome || d.isSome || extra
  | .other t => t

/-- First present-and-truthy candidate (the Python `a or b or c` chain over
optional strings, where `None` and `""` are falsy). -/
def firstTruthy : List (Option String) → Option String
  | [] => none
  | some s :: rest => if s ≠ "" then some s else firstTruthy rest
  | none :: rest => firstTruthy rest

/-- Model of `_format_due`: `""` for falsy input; else the
`string`/`datetime`/`date` getattr chain (only objects have those
attributes); else the same chain over dict keys; else `""`. -/
def formatDue (due : DueVal) : String :=
  if !dueTruthy due then ""
  else
    match due with
    | .obj s dt d =>
      match firstTruthy [s, dt, d] with
      | some v => v
      | none => ""
    | .dict s dt d _ => (firstTruthy [s, dt, d]).getD ""
    | _ => ""

/-! ### Raw tasks and the view-model builder (`build()`, lines 252–298)

A raw task record is modelled by the fields `build()` reads from it; `none`
stands for an absent attribute (for which `_get` yields the stated default).
A present `PyVal.vNone` is a field holding Python `None`. -/

structure RawTask where
  priority : Option PyVal
  content : Option String
  due : DueVal
  labels : Option (List PyVal)
  section_id : Option PyVal
  url : Option String
  order : Option PyVal
  id : Option PyVal
deriving DecidableEq, Repr

/-- The canonical view model (`view_models.append({...})`, lines 291–298). -/
structure TaskViewModel where
  content : String
  due : String
  labels : List String
  priority_class : String
  url : String
  «section» : String
deriving DecidableEq, Repr

/-- `prio = _get(t, "priority", 3); try: prio = int(prio) except: prio = 3`. -/
def coercePriority (t : RawTask) : Int :=
  match t.priority with
  | none => 3
  | some v => (pyToInt v).getD 3

/-- `order = _get(t, "order", 0) or 0; try: order = int(order) except: order = 0`. -/
def coerceOrder (t : RawTask) : Int :=
  match t.order with
  | none => 0
  | some v => if pyTruthy v then (pyToInt v).getD 0 else 0

/-- `tid = str(_get(t, "id", "")) or ""`. -/
def idStr (t : RawTask) : String :=
  match t.id with
  | none => ""
  | some v => pyStrOf v

/-- The pre-bucketing sort key `sort_key(t) = (order, tid)` (lines 253–260). -/
def taskKey (t : RawTask) : Int × String := (coerceOrder t, idStr t)

/-- Lexicographic order on `(order, tid)` pairs: Python tuple comparison. -/
def pairLexLE (a b : Int × String) : Prop :=
  a.1 < b.1 ∨ (a.1 = b.1 ∧ a.2 ≤ b.2)

instance (a b : Int × String) : Decidable (pairLexLE a b) := by
  unfold pairLexLE; infer_instance

/-- Boolean comparator for `tasks.sort(key=sort_key)`. -/
def taskLE (a b : RawTask) : Bool := decide (pairLexLE (taskKey a) (taskKey b))

/-- `tasks.sort(key=sort_key)` (line 262): a stable sort by `taskKey`. -/
def sortTasks (ts : List RawTask) : List RawTask := ts.mergeSort taskLE

/-- `labels = _get(t, "labels", []) or []; labels = [escape(str(x)) for x in labels]`. -/
def vmLabels (t : RawTask) : List String :=
  match t.labels with
  | none => []
  | some l => l.map (fun x => escape (pyStrOf x))

/-- Section-name resolution (lines 280–283): only `if section_id is not
None:` is the map consulted — an absent attribute (for which `_get` yields
`None`) and a present `None` both skip the lookup and leave the name `""`;
otherwise look up `str(section_id)`, with `""` for failed lookups
(`section_name_by_id.get(str(section_id), "") or ""`). -/
def sectionNameOf (secs : String → Option String) (t : RawTask) : String :=
  match t.section_id with
  | none => ""
  | some PyVal.vNone => ""
  | some v =>
    match secs (pyStrOf v) with
    | some n => n
    | none => ""

/-- One view model (lines 276–298, the non-excluded branch). -/
def mkViewModel (secs : String → Option String) (t : RawTask) : TaskViewModel :=
  { content := escape (t.content.getD "")
    due := escape (formatDue t.due)
    labels := vmLabels t
    priority_class := "p" ++ toString (coercePriority t)
    url := t.url.getD ""
    «section» := if escape (sectionNameOf secs t) = "" then "Unassigned"
                 else escape (sectionNameOf secs t) }

/-- The view-model loop (lines 265–298): skip tasks whose coerced priority is
in the exclusion set, build a view model for every other task, in order. -/
def buildViewModels (excl : List Int) (secs : String → Option String) :
    List RawTask → List TaskViewModel
  | [] => []
  | t :: rest =>
    if coercePriority t ∈ excl then buildViewModels excl secs rest
    else mkViewModel secs t :: buildViewModels excl secs rest

/-- The view models `build()` actually renders: built from the
`(order, id)`-sorted task list (lines 262–265). -/
def pipelineViewModels (excl : List Int) (secs : String → Option String)
    (ts : List RawTask) : List TaskViewModel :=
  buildViewModels excl secs (sortTasks ts)

/-! ### Column resolution (lines 300–316) -/

/-- Split the configured `SECTIONS` value on `|` (Python `str.split("|")`). -/
def splitPipe : List Char → List (List Char)
  | [] => [[]]
  | c :: rest =>
    match splitPipe rest with
    | [] => [[]]
    | cur :: done => if c = '|' then [] :: cur :: done else (c :: cur) :: done

/-- `[s.strip() for s in configured.split("|") if s.strip()]` (line 304). -/
def splitTrim (configured : String) : List String :=
  ((splitPipe configured.data).map (fun l => String.mk (trimChars l))).filter
    (fun s => s ≠ "")

/-- First-seen distinct nonempty sections of the view models, in order
(lines 307–311). -/
def discoverSections (vms : List TaskViewModel) : List String :=
  vms.foldl
    (fun discovered t =>
      if t.«section» ≠ "" ∧ t.«section» ∉ discovered then
        discovered ++ [t.«section»]
      else discovered)
    []

/-- The padding loop (lines 314–315):
`while len(col_titles) < 5: col_titles.append("Column " + str(len(col_titles)+1))`. -/
def padColumns (l : List String) : List String :=
  if _h : l.length < 5 then
    padColumns (l ++ ["Column " ++ toString (l.length + 1)])
  else l
termination_by 5 - l.length
decreasing_by simp; omega

/-- The column-title list before padding: configured titles if `SECTIONS` is
set (nonempty after strip), else the first 5 discovered sections. -/
def colBase (cfg : String) (vms : List TaskViewModel) : List String :=
  if pyStrip cfg ≠ "" then splitTrim (pyStrip cfg)
  else (discoverSections vms).take 5

/-- `col_titles` as used for bucketing (lines 302–315). -/
def resolvedTitles (cfg : String) (vms : List TaskViewModel) : List String :=
  padColumns (colBase cfg vms)

/-! ### Bucketing (lines 318–347) -/

/-- `sec = t["section"] or "Unassigned"` (line 324). -/
def effSection (v : TaskViewModel) : String :=
  if v.«section» = "" then "Unassigned" else v.«section»

/-- The dict key a view model is appended under (lines 323–328): its section
when that exactly matches a resolved title, else the `"Other"` sink. -/
def bucketKey (titles : List String) (v : TaskViewModel) : String :=
  if effSection v ∈ titles then effSection v else "Other"

/-- Content of the bucket stored under `key` after the partition loop: the
view models assigned that key, in order. -/
def bucketList (titles : List String) (key : String) (vms : List TaskViewModel) :
    List TaskViewModel :=
  vms.filter (fun v => bucketKey titles v == key)

/-- First-occurrence deduplication: the key order of a Python dict built by
successive insertion. -/
def firstDedup : List String → List String
  | [] => []
  | a :: l => a :: (firstDedup l).filter (fun s => s ≠ a)

/-- The keys of the `buckets` dict (line 319–320): the distinct column titles
in first-occurrence order, with `"Other"` appended when not already present. -/
def bucketKeys (titles : List String) : List String :=
  firstDedup (titles ++ ["Other"])

/-! ### In-bucket sorting (`vm_sort_key`, lines 331–340) -/

/-- `int(t["priority_class"][1:])` with fallback `3` on a parse failure. -/
def vmPr (v : TaskViewModel) : Int :=
  match parsePyInt (v.priority_class.drop 1) with
  | some n => n
  | none => 3

/-- `vm_sort_key(t) = (pr, t["due"], t["content"])`. -/
def vmSortKey (v : TaskViewModel) : Int × String × String :=
  (vmPr v, v.due, v.content)

/-- Lexicographic order on the triple: Python tuple comparison. -/
def tripleLexLE (a b : Int × String × String) : Prop :=
  a.1 < b.1 ∨ (a.1 = b.1 ∧ (a.2.1 < b.2.1 ∨ (a.2.1 = b.2.1 ∧ a.2.2 ≤ b.2.2)))

instance (a b : Int × String × String) : Decidable (tripleLexLE a b) := by
  unfold tripleLexLE; infer_instance

/-- Boolean comparator for `buckets[k].sort(key=vm_sort_key)`. -/
def vmKeyLE (a b : TaskViewModel) : Bool :=
  decide (tripleLexLE (vmSortKey a) (vmSortKey b))

/-- `buckets[k].sort(key=vm_sort_key)` (lines 339–340): a stable sort. -/
def sortBucket (l : List TaskViewModel) : List TaskViewModel :=
  l.mergeSort vmKeyLE

/-! ### The final column ordering (lines 342–347) -/

/-- `ordered_titles`: drop `"Other"` when its (sorted) bucket ended empty,
else append it last. -/
def finalTitles (titles : List String) (vms : List TaskViewModel) : List String :=
  if (sortBucket (bucketList titles "Other" vms)).isEmpty then titles
  else titles ++ ["Other"]

/-! ## Helper lemmas -/

theorem padColumns_eq (l : List String) :
    padColumns l = l ++ (List.range (5 - l.length)).map
      (fun i => "Column " ++ toString (l.length + i + 1)) := by
  generalize hn : 5 - l.length = n
  induction n generalizing l with
  | zero =>
    have h : ¬ l.length < 5 := by omega
    rw [padColumns]
    simp [h]
  | succ k ih =>
    have hlt : l.length < 5 := by omega
    rw [padColumns]
    simp only [hlt, dite_true]
    have h2 : 5 - (l ++ ["Column " ++ toString (l.length + 1)]).length = k := by
      simp; omega
    rw [ih _ h2]
    rw [List.append_assoc]
    congr 1
    simp only [List.length_append, List.length_singleton]
    rw [List.range_succ_eq_map, List.map_cons, List.map_map, List.singleton_append]
    congr 1
    apply List.map_congr_left
    intro a _
    simp only [Function.comp_apply, Nat.succ_eq_add_one]
    have harg : l.length + 1 + a + 1 = l.length + (a + 1) + 1 := by omega
    rw [harg]

theorem padColumns_length (l : List String) :
    (padColumns l).length = max l.length 5 := by
  rw [padColumns_eq]
  simp
  omega

theorem padColumns_of_ge (l : List String) (h : 5 ≤ l.length) :
    padColumns l = l := by
  rw [padColumns_eq]
  have : 5 - l.length = 0 := by omega
  simp [this]

/-! Order facts for the two comparators. -/

theorem pairLexLE_refl (a : Int × String) : pairLexLE a a :=
  Or.inr ⟨rfl, le_refl _⟩

theorem pairLexLE_trans {a b c : Int × String}
    (h₁ : pairLexLE a b) (h₂ : pairLexLE b c) : pairLexLE a c := by
  obtain ⟨a1, a2⟩ := a; obtain ⟨b1, b2⟩ := b; obtain ⟨c1, c2⟩ := c
  simp only [pairLexLE] at *
  rcases h₁ with h₁ | ⟨e₁, h₁⟩
  · rcases h₂ with h₂ | ⟨e₂, h₂⟩
    · exact Or.inl (lt_trans h₁ h₂)
    · exact Or.inl (e₂ ▸ h₁)
  · rcases h₂ with h₂ | ⟨e₂, h₂⟩
    · exact Or.inl (e₁ ▸ h₂)
    · exact Or.inr ⟨e₁.trans e₂, le_trans h₁ h₂⟩

theorem pairLexLE_total (a b : Int × String) : pairLexLE a b ∨ pairLexLE b a := by
  obtain ⟨a1, a2⟩ := a; obtain ⟨b1, b2⟩ := b
  simp only [pairLexLE]
  rcases lt_trichotomy a1 b1 with h | h | h
  · exact Or.inl (Or.inl h)
  · rcases le_total a2 b2 with h2 | h2
    · exact Or.inl (Or.inr ⟨h, h2⟩)
    · exact Or.inr (Or.inr ⟨h.symm, h2⟩)
  · exact Or.inr (Or.inl h)

theorem pairLexLE_antisymm {a b : Int × String}
    (h₁ : pairLexLE a b) (h₂ : pairLexLE b a) : a = b := by
  obtain ⟨a1, a2⟩ := a; obtain ⟨b1, b2⟩ := b
  simp only [pairLexLE] at *
  rcases h₁ with h₁ | ⟨e₁, h₁⟩ <;> rcases h₂ with h₂ | ⟨e₂, h₂⟩
  · exact absurd (lt_trans h₁ h₂) (lt_irrefl _)
  · exact absurd (e₂ ▸ h₁) (lt_irrefl _)
  · exact absurd (e₁ ▸ h₂) (lt_irrefl _)
  · exact Prod.ext e₁ (le_antisymm h₁ h₂)

theorem tripleLexLE_refl (a : Int × String × String) : tripleLexLE a a :=
  Or.inr ⟨rfl, Or.inr ⟨rfl, le_refl _⟩⟩

theorem tripleLexLE_trans {a b c : Int × String × String}
    (h₁ : tripleLexLE a b) (h₂ : tripleLexLE b c) : tripleLexLE a c := by
  obtain ⟨a1, a2, a3⟩ := a; obtain ⟨b1, b2, b3⟩ := b; obtain ⟨c1, c2, c3⟩ := c
  simp only [tripleLexLE] at *
  rcases h₁ with h₁ | ⟨e₁, h₁⟩
  · rcases h₂ with h₂ | ⟨e₂, h₂⟩
    · exact Or.inl (lt_trans h₁ h₂)
    · exact Or.inl (e₂ ▸ h₁)
  · rcases h₂ with h₂ | ⟨e₂, h₂⟩
    · exact Or.inl (e₁ ▸ h₂)
    · refine Or.inr ⟨e₁.trans e₂, ?_⟩
      rcases h₁ with h₁ | ⟨f₁, h₁⟩
      · rcases h₂ with h₂ | ⟨f₂, h₂⟩
        · exact Or.inl (lt_trans h₁ h₂)
        · exact Or.inl (f₂ ▸ h₁)
      · rcases h₂ with h₂ | ⟨f₂, h₂⟩
        · exact Or.inl (f₁ ▸ h₂)
        · exact Or.inr ⟨f₁.trans f₂, le_trans h₁ h₂⟩

theorem tripleLexLE_total (a b : Int × String × String) :
    tripleLexLE a b ∨ tripleLexLE b a := by
  obtain ⟨a1, a2, a3⟩ := a; obtain ⟨b1, b2, b3⟩ := b
  simp only [tripleLexLE]
  rcases lt_trichotomy a1 b1 with h | h | h
  · exact Or.inl (Or.inl h)
  · rcases lt_trichotomy a2 b2 with h2 | h2 | h2
    · exact Or.inl (Or.inr ⟨h, Or.inl h2⟩)
    · rcases le_total a3 b3 with h3 | h3
      · exact Or.inl (Or.inr ⟨h, Or.inr ⟨h2, h3⟩⟩)
      · exact Or.inr (Or.inr ⟨h.symm, Or.inr ⟨h2.symm, h3⟩⟩)
    · exact Or.inr (Or.inr ⟨h.symm, Or.inl h2⟩)
  · exact Or.inr (Or.inl h)

theorem vmKeyLE_trans : ∀ (a b c : TaskViewModel),
    vmKeyLE a b → vmKeyLE b c → vmKeyLE a c := by
  intro a b c h₁ h₂
  simp only [vmKeyLE, decide_eq_true_eq] at *
  exact tripleLexLE_trans h₁ h₂

theorem vmKeyLE_total : ∀ (a b : TaskViewModel), vmKeyLE a b || vmKeyLE b a := by
  intro a b
  simp only [vmKeyLE, Bool.or_eq_true, decide_eq_true_eq]
  exact tripleLexLE_total _ _

theorem taskLE_trans : ∀ (a b c : RawTask), taskLE a b → taskLE b c → taskLE a c := by
  intro a b c h₁ h₂
  simp only [taskLE, decide_eq_true_eq] at *
  exact pairLexLE_trans h₁ h₂

theorem taskLE_total : ∀ (a b : RawTask), taskLE a b || taskLE b a := by
  intro a b
  simp only [taskLE, Bool.or_eq_true, decide_eq_true_eq]
  exact pairLexLE_total _ _

/-! Facts about the view-model builder. -/

theorem buildViewModels_eq_filterMap (excl : List Int) (secs : String → Option String)
    (l : List RawTask) :
    buildViewModels excl secs l =
      (l.filter (fun t => !decide (coercePriority t ∈ excl))).map (mkViewModel secs) := by
  induction l with
  | nil => rfl
  | cons t rest ih =>
    by_cases h : coercePriority t ∈ excl <;>
      simp [buildViewModels, h, ih, List.filter_cons]

theorem filter_not_length {α : Type} (p : α → Bool) (l : List α) :
    (l.filter (fun x => !p x)).length + (l.filter p).length = l.length := by
  induction l with
  | nil => rfl
  | cons x rest ih =>
    by_cases h : p x <;> simp [List.filter_cons, h] <;> omega

theorem length_buildViewModels (excl : List Int) (secs : String → Option String)
    (l : List RawTask) :
    (buildViewModels excl secs l).length +
      (l.filter (fun t => decide (coercePriority t ∈ excl))).length = l.length := by
  rw [buildViewModels_eq_filterMap, List.length_map]
  exact filter_not_length _ l

theorem length_pipelineViewModels (excl : List Int) (secs : String → Option String)
    (ts : List RawTask) :
    (pipelineViewModels excl secs ts).length +
      (ts.filter (fun t => decide (coercePriority t ∈ excl))).length = ts.length := by
  unfold pipelineViewModels sortTasks
  have hperm : (ts.mergeSort taskLE).Perm ts := List.mergeSort_perm ts taskLE
  have h := length_buildViewModels excl secs (ts.mergeSort taskLE)
  have hfl : ((ts.mergeSort taskLE).filter
        (fun t => decide (coercePriority t ∈ excl))).length =
      (ts.filter (fun t => decide (coercePriority t ∈ excl))).length :=
    (hperm.filter _).length_eq
  have hlen : (ts.mergeSort taskLE).length = ts.length := hperm.length_eq
  omega

/-! Facts about `firstDedup` and bucket keys. -/

theorem mem_firstDedup {a : String} : ∀ {l : List String}, a ∈ firstDedup l ↔ a ∈ l := by
  intro l
  induction l with
  | nil => simp [firstDedup]
  | cons b l ih =>
    by_cases hab : a = b
    · simp [firstDedup, hab]
    · simp [firstDedup, hab, List.mem_filter, ih]

theorem nodup_firstDedup : ∀ (l : List String), (firstDedup l).Nodup := by
  intro l
  induction l with
  | nil => simp [firstDedup]
  | cons b l ih =>
    simp only [firstDedup, List.nodup_cons]
    constructor
    · intro hmem
      have hne := (List.mem_filter.mp hmem).2
      simp at hne
    · exact ih.filter _

theorem bucketKey_mem_bucketKeys (titles : List String) (v : TaskViewModel) :
    bucketKey titles v ∈ bucketKeys titles := by
  rw [bucketKeys, mem_firstDedup]
  unfold bucketKey
  by_cases h : effSection v ∈ titles <;> simp [h]

theorem mem_bucketList {titles : List String} {k : String} {vms : List TaskViewModel}
    {v : TaskViewModel} :
    v ∈ bucketList titles k vms ↔ v ∈ vms ∧ bucketKey titles v = k := by
  simp [bucketList, List.mem_filter]

/-! The counting lemma: a list of pairwise-distinct keys covering every
classification splits a list into buckets whose sizes sum to its length. -/

theorem sum_indicator (c : String) : ∀ (keys : List String), keys.Nodup → c ∈ keys →
    (keys.map (fun k => if c = k then 1 else 0)).sum = 1 := by
  intro keys
  induction keys with
  | nil => simp
  | cons k ks ih =>
    intro hnd hmem
    by_cases hck : c = k
    · subst hck
      simp only [List.map_cons, if_pos rfl, List.sum_cons]
      have : ∀ x ∈ ks.map (fun k => if c = k then 1 else 0), x = 0 := by
        intro x hx
        obtain ⟨k', hk', hval⟩ := List.mem_map.mp hx
        have : c ≠ k' := fun hckk => (List.nodup_cons.mp hnd).1 (hckk ▸ hk')
        simpa [this] using hval.symm
      rw [List.sum_eq_zero this]
      simp
    · have hmem' : c ∈ ks := by
        rcases List.mem_cons.mp hmem with h | h
        · exact absurd h hck
        · exact h
      simp only [List.map_cons, if_neg hck, List.sum_cons]
      rw [ih (List.nodup_cons.mp hnd).2 hmem']

theorem sum_map_add {β : Type} (f g : β → Nat) : ∀ (l : List β),
    (l.map (fun b => f b + g b)).sum = (l.map f).sum + (l.map g).sum := by
  intro l
  induction l with
  | nil => rfl
  | cons b l ih =>
    simp only [List.map_cons, List.sum_cons, ih]
    omega

theorem sum_classified_lengths {α : Type} (f : α → String) :
    ∀ (xs : List α) (keys : List String), keys.Nodup → (∀ x ∈ xs, f x ∈ keys) →
      (keys.map (fun k => (xs.filter (fun x => f x == k)).length)).sum = xs.length := by
  intro xs
  induction xs with
  | nil => intro keys _ _; simp
  | cons x xs ih =>
    intro keys hnd hcov
    have hx : f x ∈ keys := hcov x (List.mem_cons_self x xs)
    have step : ∀ k : String,
        ((x :: xs).filter (fun y => f y == k)).length =
          (if f x = k then 1 else 0) + (xs.filter (fun y => f y == k)).length := by
      intro k
      by_cases h : f x = k
      · simp [List.filter_cons, h]
        omega
      · simp [List.filter_cons, h]
    have hmapeq : keys.map (fun k => ((x :: xs).filter (fun y => f y == k)).length) =
        keys.map (fun k => (if f x = k then 1 else 0) +
          (xs.filter (fun y => f y == k)).length) :=
      List.map_congr_left (fun k _ => step k)
    rw [hmapeq]
    rw [sum_map_add (fun k => if f x = k then 1 else 0)
      (fun k => (xs.filter (fun y => f y == k)).length) keys]
    rw [sum_indicator (f x) keys hnd hx,
      ih keys hnd (fun y hy => hcov y (List.mem_cons_of_mem x hy))]
    simp [List.length_cons]
    omega

/-! ## Claim theorems -/

/-- C9: `_as_list` returns a flat list in which each element that is itself a
nested sequence contributes its elements individually (one level of
flattening only) and every other element contributes itself, with the order
of contributions preserved. -/
theorem C9_asList {α : Type} (l : List (Item α)) :
    asList l = (l.map itemContrib).flatten := by
  induction l with
  | nil => rfl
  | cons x rest ih => cases x <;> simp [asList, itemContrib, ih]

/-- C7: `_format_due` returns `""` for empty or absent input, and otherwise
the stringified value of the first present-and-truthy candidate in the strict
preference order `string`, then `datetime`, then `date`, applied to object
sub-fields for object-like input and to keys for dict input; in particular a
due with both `string="Mon"` and `datetime="2024-01-01T00:00"` formats to
`"Mon"`. -/
theorem C7_formatDue :
    (∀ due : DueVal, dueTruthy due = false → formatDue due = "") ∧
    formatDue DueVal.absent = "" ∧
    (∀ s dt d, s ≠ "" → formatDue (DueVal.obj (some s) dt d) = s) ∧
    (∀ dt d, dt ≠ "" → formatDue (DueVal.obj none (some dt) d) = dt ∧
      formatDue (DueVal.obj (some "") (some dt) d) = dt) ∧
    (∀ d, d ≠ "" → formatDue (DueVal.obj none none (some d)) = d) ∧
    (∀ s dt d x, s ≠ "" → formatDue (DueVal.dict (some s) dt d x) = s) ∧
    (∀ dt d x, dt ≠ "" → formatDue (DueVal.dict none (some dt) d x) = dt) ∧
    (∀ d x, d ≠ "" → formatDue (DueVal.dict none none (some d) x) = d) ∧
    formatDue (DueVal.obj (some "Mon") (some "2024-01-01T00:00") none) = "Mon" := by
  refine ⟨?_, rfl, ?_, ?_, ?_, ?_, ?_, ?_, by decide⟩
  · intro due h
    simp [formatDue, h]
  · intro s dt d hs
    simp [formatDue, dueTruthy, firstTruthy, hs]
  · intro dt d hdt
    constructor <;> simp [formatDue, dueTruthy, firstTruthy, hdt]
  · intro d hd
    simp [formatDue, dueTruthy, firstTruthy, hd]
  · intro s dt d x hs
    simp [formatDue, dueTruthy, firstTruthy, hs]
  · intro dt d x hdt
    simp [formatDue, dueTruthy, firstTruthy, hdt]
  · intro d x hd
    simp [formatDue, dueTruthy, firstTruthy, hd]

/-- C7 witness: the formatter evaluated on concrete dues, including the
spec's `string`-beats-`datetime` example. -/
theorem C7_formatDue_witness :
    formatDue (DueVal.obj (some "Mon") (some "2024-01-01T00:00") none) = "Mon" ∧
    formatDue (DueVal.dict none (some "2024-01-01") none false) = "2024-01-01" :=
  ⟨C7_formatDue.2.2.1 "Mon" (some "2024-01-01T00:00") none (by decide),
   C7_formatDue.2.2.2.2.2.2.1 "2024-01-01" none false (by decide)⟩

/-- C8 counterexample: the claim says no exception ever propagates from
`_get`, but for a record whose attribute access raises a
non-`AttributeError` exception, the `hasattr` probe re-raises it (Python 3's
`hasattr` swallows only `AttributeError`, and it sits outside the `try`), so
`_get` propagates instead of returning the default. -/
theorem C8_get_counterexample :
    pyGet ⟨fun _ => AttrOutcome.otherErr, none⟩ "priority" (PyVal.vInt 3) =
      Except.error () := rfl

/-- C8 (amended): provided attribute access for the field does not raise a
non-`AttributeError` exception, `_get` returns the attribute value when
access succeeds, falls through on `AttributeError` to the mapping's value for
the key (or the default when absent) for mapping records, returns the default
for non-mappings, and no exception reaches the caller. -/
theorem C8_get (r : PyRecord) (attr : String) (dflt : PyVal)
    (h : r.attrs attr ≠ AttrOutcome.otherErr) :
    (∀ v, r.attrs attr = AttrOutcome.val v → pyGet r attr dflt = Except.ok v) ∧
    (∀ m, r.attrs attr = AttrOutcome.attrErr → r.dict = some m →
      pyGet r attr dflt = Except.ok ((m attr).getD dflt)) ∧
    (r.attrs attr = AttrOutcome.attrErr → r.dict = none →
      pyGet r attr dflt = Except.ok dflt) ∧
    ∃ v, pyGet r attr dflt = Except.ok v := by
  cases hout : r.attrs attr <;> rcases hd : r.dict with _ | m <;>
    simp_all [pyGet]

/-- C8 witness: `_get` on a record exposing the attribute. -/
theorem C8_get_witness :
    pyGet ⟨fun _ => AttrOutcome.val (PyVal.vStr "x"), none⟩ "content" PyVal.vNone =
      Except.ok (PyVal.vStr "x") :=
  (C8_get ⟨fun _ => AttrOutcome.val (PyVal.vStr "x"), none⟩ "content" PyVal.vNone
    (by simp)).1 _ rfl

/-- C6: for every non-excluded raw task the emitted `priorityClass` is the
string `"p"` concatenated with the coerced priority (default 3), with no
clamping to `1..4`. -/
theorem C6_priorityClass (excl : List Int) (secs : String → Option String)
    (ts₁ ts₂ : List RawTask) (t : RawTask) (h : coercePriority t ∉ excl) :
    (mkViewModel secs t).priority_class = "p" ++ toString (coercePriority t) ∧
    mkViewModel secs t ∈ buildViewModels excl secs (ts₁ ++ t :: ts₂) := by
  refine ⟨rfl, ?_⟩
  rw [buildViewModels_eq_filterMap]
  apply List.mem_map_of_mem
  rw [List.mem_filter]
  exact ⟨List.mem_append_right _ (List.mem_cons_self _ _), by simpa using h⟩

/-- C6 witness: priorities 0 and 5 yield the unclamped classes `"p0"` and
`"p5"`. -/
theorem C6_priorityClass_witness :
    (mkViewModel (fun _ => none)
        { priority := some (PyVal.vInt 0), content := none, due := DueVal.absent,
          labels := none, section_id := none, url := none, order := none,
          id := none }).priority_class = "p0" ∧
    (mkViewModel (fun _ => none)
        { priority := some (PyVal.vInt 5), content := none, due := DueVal.absent,
          labels := none, section_id := none, url := none, order := none,
          id := none }).priority_class = "p5" := by
  constructor
  · rw [(C6_priorityClass [] (fun _ => none) [] []
      { priority := some (PyVal.vInt 0), content := none, due := DueVal.absent,
        labels := none, section_id := none, url := none, order := none,
        id := none } (by simp)).1]
    rfl
  · rw [(C6_priorityClass [] (fun _ => none) [] []
      { priority := some (PyVal.vInt 5), content := none, due := DueVal.absent,
        labels := none, section_id := none, url := none, order := none,
        id := none } (by simp)).1]
    rfl

/-- C5: a raw task whose coerced priority (default 3 on missing or
non-numeric) lies in the excluded set is omitted entirely: removing it from
the input leaves the produced view-model list unchanged, the reported count
is the number of non-excluded tasks, and every bucket element originates
from a non-excluded task. -/
theorem C5_exclusion (excl : List Int) (secs : String → Option String)
    (ts : List RawTask) :
    (∀ ts₁ t ts₂, ts = ts₁ ++ t :: ts₂ → coercePriority t ∈ excl →
      buildViewModels excl secs ts = buildViewModels excl secs (ts₁ ++ ts₂)) ∧
    (pipelineViewModels excl secs ts).length =
      (ts.filter (fun t => !decide (coercePriority t ∈ excl))).length ∧
    (∀ titles k v, v ∈ bucketList titles k (pipelineViewModels excl secs ts) →
      ∃ u, u ∈ ts ∧ coercePriority u ∉ excl ∧ v = mkViewModel secs u) := by
  refine ⟨?_, ?_, ?_⟩
  · intro ts₁ t ts₂ heq hex
    subst heq
    rw [buildViewModels_eq_filterMap, buildViewModels_eq_filterMap]
    simp [List.filter_append, List.filter_cons, hex]
  · have h := length_pipelineViewModels excl secs ts
    have h2 := filter_not_length (fun t => decide (coercePriority t ∈ excl)) ts
    omega
  · intro titles k v hv
    have hvm : v ∈ pipelineViewModels excl secs ts := (mem_bucketList.mp hv).1
    unfold pipelineViewModels sortTasks at hvm
    rw [buildViewModels_eq_filterMap] at hvm
    obtain ⟨u, hu, rfl⟩ := List.mem_map.mp hvm
    obtain ⟨hu1, hu2⟩ := List.mem_filter.mp hu
    exact ⟨u, List.mem_mergeSort.mp hu1, by simpa using hu2, rfl⟩

/-- C5 witness: excluding priority 4 drops a priority-4 task entirely and
the reported count ignores it. -/
theorem C5_exclusion_witness :
    buildViewModels [4] (fun _ => none)
        [{ priority := some (PyVal.vInt 4), content := some "A", due := DueVal.absent,
           labels := none, section_id := none, url := none, order := none,
           id := none }] =
      buildViewModels [4] (fun _ => none) ([] ++ []) ∧
    (pipelineViewModels [4] (fun _ => none)
        [{ priority := some (PyVal.vInt 4), content := some "A", due := DueVal.absent,
           labels := none, section_id := none, url := none, order := none,
           id := none }]).length =
      ([({ priority := some (PyVal.vInt 4), content := some "A", due := DueVal.absent,
           labels := none, section_id := none, url := none, order := none,
           id := none } : RawTask)].filter
        (fun t => !decide (coercePriority t ∈ [4]))).length :=
  ⟨(C5_exclusion [4] (fun _ => none) _).1 [] _ [] rfl (by decide),
   (C5_exclusion [4] (fun _ => none) _).2.1⟩

/-- Induction workhorse for the column-discovery loop: starting from any
duplicate-free accumulator, the loop keeps it duplicate-free and its final
members are the accumulator's members plus the nonempty section values. -/
theorem discover_foldl (vms : List TaskViewModel) :
    ∀ acc : List String, acc.Nodup →
      (vms.foldl (fun discovered t =>
          if t.«section» ≠ "" ∧ t.«section» ∉ discovered then
            discovered ++ [t.«section»]
          else discovered) acc).Nodup ∧
      (∀ s, s ∈ vms.foldl (fun discovered t =>
          if t.«section» ≠ "" ∧ t.«section» ∉ discovered then
            discovered ++ [t.«section»]
          else discovered) acc ↔
        s ∈ acc ∨ (s ≠ "" ∧ s ∈ vms.map (fun v => v.«section»))) := by
  induction vms with
  | nil =>
    intro acc hacc
    simp [hacc]
  | cons v vms ih =>
    intro acc hacc
    simp only [List.foldl_cons, List.map_cons, List.mem_cons]
    by_cases hv : v.«section» ≠ "" ∧ v.«section» ∉ acc
    · have hnd : (acc ++ [v.«section»]).Nodup := by
        simp [List.nodup_append, hacc, hv.2]
      obtain ⟨h1, h2⟩ := ih (acc ++ [v.«section»]) hnd
      rw [if_pos hv]
      refine ⟨h1, ?_⟩
      intro s
      rw [h2 s]
      simp only [List.mem_append, List.mem_singleton]
      constructor
      · rintro (⟨h | h⟩ | ⟨hne, hmem⟩)
        · exact Or.inl h
        · exact Or.inr ⟨h ▸ hv.1, Or.inl h⟩
        · exact Or.inr ⟨hne, Or.inr hmem⟩
      · rintro (h | ⟨hne, h | h⟩)
        · exact Or.inl (Or.inl h)
        · exact Or.inl (Or.inr h)
        · exact Or.inr ⟨hne, h⟩
    · obtain ⟨h1, h2⟩ := ih acc hacc
      rw [if_neg hv]
      refine ⟨h1, ?_⟩
      intro s
      rw [h2 s]
      push_neg at hv
      constructor
      · rintro (h | ⟨hne, hmem⟩)
        · exact Or.inl h
        · exact Or.inr ⟨hne, Or.inr hmem⟩
      · rintro (h | ⟨hne, h | h⟩)
        · exact Or.inl h
        · subst h
          exact Or.inl (hv hne)
        · exact Or.inr ⟨hne, h⟩

theorem nodup_discoverSections (vms : List TaskViewModel) :
    (discoverSections vms).Nodup :=
  (discover_foldl vms [] (by simp)).1

theorem mem_discoverSections {vms : List TaskViewModel} {s : String} :
    s ∈ discoverSections vms ↔
      s ≠ "" ∧ s ∈ vms.map (fun v => v.«section») := by
  have h := (discover_foldl vms [] (by simp)).2 s
  simpa [discoverSections] using h

/-- C2: column resolution always yields at least 5 named titles: configured
pipe-delimited titles are trimmed, empties dropped, kept in order; otherwise
the first-seen distinct section values capped at 5 are used; either base is
padded with `"Column N"` (N the 1-based position) up to length 5, so an
unconfigured run always yields exactly 5 titles. -/
theorem C2_resolveColumns (cfg : String) (vms : List TaskViewModel) :
    5 ≤ (resolvedTitles cfg vms).length ∧
    resolvedTitles cfg vms = colBase cfg vms ++
      (List.range (5 - (colBase cfg vms).length)).map
        (fun i => "Column " ++ toString ((colBase cfg vms).length + i + 1)) ∧
    (pyStrip cfg = "" →
      resolvedTitles cfg vms = padColumns ((discoverSections vms).take 5) ∧
      (resolvedTitles cfg vms).length = 5) ∧
    (pyStrip cfg ≠ "" →
      resolvedTitles cfg vms = padColumns (splitTrim (pyStrip cfg))) ∧
    (discoverSections vms).Nodup ∧
    (∀ s, s ∈ discoverSections vms ↔
      s ≠ "" ∧ s ∈ vms.map (fun v => v.«section»)) := by
  refine ⟨?_, padColumns_eq _, ?_, ?_, nodup_discoverSections vms,
    fun s => mem_discoverSections⟩
  · rw [resolvedTitles, padColumns_length]
    omega
  · intro h
    have hbase : colBase cfg vms = (discoverSections vms).take 5 := by
      simp [colBase, h]
    constructor
    · rw [resolvedTitles, hbase]
    · rw [resolvedTitles, padColumns_length, hbase]
      have := List.length_take 5 (discoverSections vms)
      omega
  · intro h
    have hbase : colBase cfg vms = splitTrim (pyStrip cfg) := by
      simp [colBase, h]
    rw [resolvedTitles, hbase]

/-- C2 witness: a two-title configuration resolves through padding, and the
unconfigured empty input yields at least 5 titles. -/
theorem C2_resolveColumns_witness :
    resolvedTitles "A|B" [] = padColumns (splitTrim (pyStrip "A|B")) ∧
    5 ≤ (resolvedTitles "" []).length :=
  ⟨(C2_resolveColumns "A|B" []).2.2.2.1 (by decide),
   (C2_resolveColumns "" []).1⟩

/-- C4: in-bucket sorting is a reordering by the key `(numeric priority from
`priorityClass` with fallback 3, due string, content)` ascending, is stable
(equal-key elements keep their relative order) and idempotent. -/
theorem C4_sortBucket (l : List TaskViewModel) :
    (sortBucket l).Perm l ∧
    (sortBucket l).Pairwise (fun a b => vmKeyLE a b = true) ∧
    sortBucket (sortBucket l) = sortBucket l ∧
    (∀ a b : TaskViewModel, vmSortKey a = vmSortKey b → [a, b].Sublist l →
      [a, b].Sublist (sortBucket l)) ∧
    (∀ v : TaskViewModel, parsePyInt (v.priority_class.drop 1) = none →
      vmPr v = 3) := by
  refine ⟨List.mergeSort_perm l vmKeyLE, ?_, ?_, ?_, ?_⟩
  · exact List.sorted_mergeSort vmKeyLE_trans vmKeyLE_total l
  · exact List.mergeSort_of_sorted
      (List.sorted_mergeSort vmKeyLE_trans vmKeyLE_total l)
  · intro a b hk hsub
    refine List.pair_sublist_mergeSort vmKeyLE_trans vmKeyLE_total ?_ hsub
    simp only [vmKeyLE, decide_eq_true_eq]
    rw [hk]
    exact tripleLexLE_refl _
  · intro v hv
    simp [vmPr, hv]

/-- C4 witness: two equal-key view models differing only in `url` keep their
relative order through the sort, and an unparsable class falls back to 3. -/
theorem C4_sortBucket_witness :
    [({ content := "T", due := "", labels := [], priority_class := "p2",
        url := "u1", «section» := "S" } : TaskViewModel),
     ({ content := "T", due := "", labels := [], priority_class := "p2",
        url := "u2", «section» := "S" } : TaskViewModel)].Sublist
      (sortBucket
        [({ content := "T", due := "", labels := [], priority_class := "p2",
            url := "u1", «section» := "S" } : TaskViewModel),
         ({ content := "T", due := "", labels := [], priority_class := "p2",
            url := "u2", «section» := "S" } : TaskViewModel)]) ∧
    vmPr ({ content := "", due := "", labels := [], priority_class := "px",
            url := "", «section» := "" } : TaskViewModel) = 3 :=
  ⟨(C4_sortBucket _).2.2.2.1 _ _ (by decide) (List.Sublist.refl _),
   (C4_sortBucket []).2.2.2.2 _ (by decide)⟩

/-- C10: before any view model is built, the flattened task list is sorted
ascending by `(order coerced with fallback 0, stringified id)`; hence the
pipeline's outcome depends only on this ordering, not on arrival order, and
the coercion falls back to 0 on missing, falsy or non-numeric `order`
values. -/
theorem C10_preSort (excl : List Int) (secs : String → Option String)
    (ts ts' : List RawTask) :
    pipelineViewModels excl secs ts = buildViewModels excl secs (sortTasks ts) ∧
    (sortTasks ts).Pairwise (fun a b => pairLexLE (taskKey a) (taskKey b)) ∧
    (ts.Perm ts' → ts.Pairwise (fun a b => taskKey a ≠ taskKey b) →
      sortTasks ts = sortTasks ts' ∧
      pipelineViewModels excl secs ts = pipelineViewModels excl secs ts') ∧
    (∀ t : RawTask, t.order = none → coerceOrder t = 0) ∧
    (∀ t v, t.order = some v → pyTruthy v = false → coerceOrder t = 0) ∧
    (∀ t v, t.order = some v → pyToInt v = none → coerceOrder t = 0) := by
  refine ⟨rfl, ?_, ?_, ?_, ?_, ?_⟩
  · have h := List.sorted_mergeSort taskLE_trans taskLE_total ts
    exact h.imp (fun hab => by simpa [taskLE, decide_eq_true_eq] using hab)
  · intro hperm hnd
    have hsym : ∀ {a b : RawTask}, taskKey a ≠ taskKey b → taskKey b ≠ taskKey a :=
      fun h e => h e.symm
    have hs₁ : (sortTasks ts).Pairwise (fun a b => taskLE a b = true) :=
      List.sorted_mergeSort taskLE_trans taskLE_total ts
    have hs₂ : (sortTasks ts').Pairwise (fun a b => taskLE a b = true) :=
      List.sorted_mergeSort taskLE_trans taskLE_total ts'
    have hnd₁ : (sortTasks ts).Pairwise (fun a b => taskKey a ≠ taskKey b) :=
      ((List.mergeSort_perm ts taskLE).pairwise_iff hsym).mpr hnd
    have hnd' : ts'.Pairwise (fun a b => taskKey a ≠ taskKey b) :=
      (hperm.pairwise_iff hsym).mp hnd
    have hnd₂ : (sortTasks ts').Pairwise (fun a b => taskKey a ≠ taskKey b) :=
      ((List.mergeSort_perm ts' taskLE).pairwise_iff hsym).mpr hnd'
    have hr₁ : (sortTasks ts).Pairwise
        (fun a b => taskKey a ≠ taskKey b ∧ pairLexLE (taskKey a) (taskKey b)) :=
      hnd₁.and (hs₁.imp (fun hab => by
        simpa [taskLE, decide_eq_true_eq] using hab))
    have hr₂ : (sortTasks ts').Pairwise
        (fun a b => taskKey a ≠ taskKey b ∧ pairLexLE (taskKey a) (taskKey b)) :=
      hnd₂.and (hs₂.imp (fun hab => by
        simpa [taskLE, decide_eq_true_eq] using hab))
    haveI : IsAntisymm RawTask
        (fun a b => taskKey a ≠ taskKey b ∧ pairLexLE (taskKey a) (taskKey b)) :=
      ⟨fun a b h₁ h₂ => absurd (pairLexLE_antisymm h₁.2 h₂.2) h₁.1⟩
    have hpp : (sortTasks ts).Perm (sortTasks ts') :=
      ((List.mergeSort_perm ts taskLE).trans hperm).trans
        (List.mergeSort_perm ts' taskLE).symm
    have heq : sortTasks ts = sortTasks ts' :=
      List.eq_of_perm_of_sorted hpp hr₁ hr₂
    exact ⟨heq, by unfold pipelineViewModels; rw [heq]⟩
  · intro t h
    simp [coerceOrder, h]
  · intro t v h htr
    simp [coerceOrder, h, htr]
  · intro t v h hint
    cases htr : pyTruthy v <;> simp [coerceOrder, h, htr, hint]

/-- C10 witness: two tasks with distinct `(order, id)` keys arrive in either
order and sort identically. -/
theorem C10_preSort_witness :
    sortTasks
        [({ priority := none, content := none, due := DueVal.absent, labels := none,
            section_id := none, url := none, order := some (PyVal.vInt 2),
            id := some (PyVal.vStr "b") } : RawTask),
         ({ priority := none, content := none, due := DueVal.absent, labels := none,
            section_id := none, url := none, order := some (PyVal.vInt 1),
            id := some (PyVal.vStr "a") } : RawTask)] =
      sortTasks
        [({ priority := none, content := none, due := DueVal.absent, labels := none,
            section_id := none, url := none, order := some (PyVal.vInt 1),
            id := some (PyVal.vStr "a") } : RawTask),
         ({ priority := none, content := none, due := DueVal.absent, labels := none,
            section_id := none, url := none, order := some (PyVal.vInt 2),
            id := some (PyVal.vStr "b") } : RawTask)] :=
  ((C10_preSort [] (fun _ => none) _ _).2.2.1 (List.Perm.swap _ _ _)
    (by decide)).1

theorem sortBucket_eq_nil_iff {l : List TaskViewModel} :
    sortBucket l = [] ↔ l = [] := by
  have hlen : (sortBucket l).length = l.length := List.length_mergeSort l
  constructor
  · intro h
    rw [h] at hlen
    exact (List.length_eq_zero.mp hlen.symm)
  · intro h
    subst h
    simp [sortBucket]

/-- C1: after exclusion filtering, every produced view model lands in exactly
one bucket: the buckets are pairwise disjoint, their union is the view-model
set, and bucket sizes sum to the number of input tasks minus the number with
excluded coerced priority. -/
theorem C1_partition (cfg : String) (excl : List Int) (secs : String → Option String)
    (ts : List RawTask) :
    (∀ k₁ k₂ : String, k₁ ≠ k₂ → ∀ v,
      v ∈ bucketList (resolvedTitles cfg (pipelineViewModels excl secs ts)) k₁
          (pipelineViewModels excl secs ts) →
      v ∉ bucketList (resolvedTitles cfg (pipelineViewModels excl secs ts)) k₂
          (pipelineViewModels excl secs ts)) ∧
    (∀ v, v ∈ pipelineViewModels excl secs ts ↔
      ∃ k ∈ bucketKeys (resolvedTitles cfg (pipelineViewModels excl secs ts)),
        v ∈ bucketList (resolvedTitles cfg (pipelineViewModels excl secs ts)) k
            (pipelineViewModels excl secs ts)) ∧
    ((bucketKeys (resolvedTitles cfg (pipelineViewModels excl secs ts))).map
        (fun k => (bucketList (resolvedTitles cfg (pipelineViewModels excl secs ts)) k
            (pipelineViewModels excl secs ts)).length)).sum =
      ts.length - (ts.filter (fun t => decide (coercePriority t ∈ excl))).length := by
  refine ⟨?_, ?_, ?_⟩
  · intro k₁ k₂ hne v h₁ h₂
    exact hne (((mem_bucketList.mp h₁).2.symm).trans (mem_bucketList.mp h₂).2)
  · intro v
    constructor
    · intro hv
      exact ⟨bucketKey (resolvedTitles cfg (pipelineViewModels excl secs ts)) v,
        bucketKey_mem_bucketKeys _ v, mem_bucketList.mpr ⟨hv, rfl⟩⟩
    · rintro ⟨k, _, hk⟩
      exact (mem_bucketList.mp hk).1
  · have hsum := sum_classified_lengths
      (bucketKey (resolvedTitles cfg (pipelineViewModels excl secs ts)))
      (pipelineViewModels excl secs ts)
      (bucketKeys (resolvedTitles cfg (pipelineViewModels excl secs ts)))
      (nodup_firstDedup _)
      (fun v _ => bucketKey_mem_bucketKeys _ v)
    have hlen := length_pipelineViewModels excl secs ts
    have hle : (ts.filter (fun t => decide (coercePriority t ∈ excl))).length ≤
        ts.length := List.length_filter_le _ ts
    simp only [bucketList]
    omega

/-- C1 witness: with one task, the view model sits in the `"Unassigned"`
bucket and in no other, and the bucket sizes sum to one. -/
theorem C1_partition_witness :
    mkViewModel (fun _ => none)
        ({ priority := none, content := some "A", due := DueVal.absent, labels := none,
           section_id := none, url := none, order := none, id := none } : RawTask) ∉
      bucketList
        (resolvedTitles ""
          (pipelineViewModels [] (fun _ => none)
            [({ priority := none, content := some "A", due := DueVal.absent,
                labels := none, section_id := none, url := none, order := none,
                id := none } : RawTask)]))
        "Other"
        (pipelineViewModels [] (fun _ => none)
          [({ priority := none, content := some "A", due := DueVal.absent,
              labels := none, section_id := none, url := none, order := none,
              id := none } : RawTask)]) := by
  have e : pipelineViewModels [] (fun _ => none)
      [({ priority := none, content := some "A", due := DueVal.absent, labels := none,
          section_id := none, url := none, order := none, id := none } : RawTask)] =
      [mkViewModel (fun _ => none)
        ({ priority := none, content := some "A", due := DueVal.absent, labels := none,
           section_id := none, url := none, order := none, id := none } : RawTask)] := by
    simp [pipelineViewModels, sortTasks, buildViewModels]
  refine (C1_partition "" [] (fun _ => none) _).1 "Unassigned" "Other" (by decide) _ ?_
  rw [e, resolvedTitles, padColumns_eq]
  decide

/-- C3 counterexample: with configured titles `"Other"` and no tasks, the
overflow bucket is empty yet `"Other"` still appears in the final column
ordering (it is a resolved title), refuting the claimed "appears iff
non-empty" biconditional. -/
theorem C3_counterexample :
    "Other" ∈ finalTitles
        (resolvedTitles "Other" (pipelineViewModels [] (fun _ => none) []))
        (pipelineViewModels [] (fun _ => none) []) ∧
    bucketList (resolvedTitles "Other" (pipelineViewModels [] (fun _ => none) []))
        "Other" (pipelineViewModels [] (fun _ => none) []) = [] := by
  have e : pipelineViewModels [] (fun _ => none) ([] : List RawTask) = [] := by
    simp [pipelineViewModels, sortTasks, buildViewModels]
  constructor
  · rw [e, finalTitles]
    simp only [bucketList, List.filter_nil, sortBucket, List.mergeSort_nil,
      List.isEmpty_nil, if_true]
    rw [resolvedTitles, padColumns_eq]
    decide
  · rw [e]
    simp [bucketList]

/-- C3 (amended): bucket assignment is exact case-sensitive equality against
the resolved titles with non-matches going to `"Other"`, and — provided
`"Other"` is not itself among the resolved titles — the `"Other"` column
appears in the final ordering iff its bucket is non-empty, is then the last
column, and is absent whenever every task's section matches a resolved
title. -/
theorem C3_overflow (cfg : String) (excl : List Int) (secs : String → Option String)
    (ts : List RawTask)
    (hO : "Other" ∉ resolvedTitles cfg (pipelineViewModels excl secs ts)) :
    (∀ v, effSection v ∈ resolvedTitles cfg (pipelineViewModels excl secs ts) →
      bucketKey (resolvedTitles cfg (pipelineViewModels excl secs ts)) v =
        effSection v) ∧
    (∀ v, effSection v ∉ resolvedTitles cfg (pipelineViewModels excl secs ts) →
      bucketKey (resolvedTitles cfg (pipelineViewModels excl secs ts)) v =
        "Other") ∧
    ("Other" ∈ finalTitles (resolvedTitles cfg (pipelineViewModels excl secs ts))
        (pipelineViewModels excl secs ts) ↔
      bucketList (resolvedTitles cfg (pipelineViewModels excl secs ts)) "Other"
        (pipelineViewModels excl secs ts) ≠ []) ∧
    (bucketList (resolvedTitles cfg (pipelineViewModels excl secs ts)) "Other"
        (pipelineViewModels excl secs ts) ≠ [] →
      (finalTitles (resolvedTitles cfg (pipelineViewModels excl secs ts))
          (pipelineViewModels excl secs ts)).getLast? = some "Other") ∧
    ((∀ v ∈ pipelineViewModels excl secs ts,
        effSection v ∈ resolvedTitles cfg (pipelineViewModels excl secs ts)) →
      "Other" ∉ finalTitles (resolvedTitles cfg (pipelineViewModels excl secs ts))
        (pipelineViewModels excl secs ts)) := by
  have hempty : ∀ l : List TaskViewModel, (sortBucket l).isEmpty = l.isEmpty := by
    intro l
    by_cases h : l = []
    · subst h
      simp [sortBucket]
    · have hs : ¬ sortBucket l = [] := fun hc => h (sortBucket_eq_nil_iff.mp hc)
      rw [List.isEmpty_eq_false.mpr hs, List.isEmpty_eq_false.mpr h]
  refine ⟨?_, ?_, ?_, ?_, ?_⟩
  · intro v hv
    simp [bucketKey, hv]
  · intro v hv
    simp [bucketKey, hv]
  · by_cases hb : bucketList (resolvedTitles cfg (pipelineViewModels excl secs ts))
        "Other" (pipelineViewModels excl secs ts) = []
    · rw [finalTitles, hempty, hb]
      simp [hb, hO]
    · rw [finalTitles, hempty]
      have : ¬ (bucketList (resolvedTitles cfg (pipelineViewModels excl secs ts))
          "Other" (pipelineViewModels excl secs ts)).isEmpty := by
        simpa [List.isEmpty_iff] using hb
      simp [this, hb]
  · intro hb
    rw [finalTitles, hempty]
    have : ¬ (bucketList (resolvedTitles cfg (pipelineViewModels excl secs ts))
        "Other" (pipelineViewModels excl secs ts)).isEmpty := by
      simpa [List.isEmpty_iff] using hb
    simp only [this, if_false, Bool.false_eq_true]
    exact List.getLast?_concat _
  · intro hall
    have hb : bucketList (resolvedTitles cfg (pipelineViewModels excl secs ts))
        "Other" (pipelineViewModels excl secs ts) = [] := by
      rw [List.eq_nil_iff_forall_not_mem]
      intro v hv
      obtain ⟨hvm, hkey⟩ := mem_bucketList.mp hv
      have hvt := hall v hvm
      rw [bucketKey, if_pos hvt] at hkey
      exact hO (hkey ▸ hvt)
    rw [finalTitles, hempty, hb]
    simpa using hO

/-- C3 amended-claim witness: with five configured titles (none of them
`"Other"`) and no tasks, the biconditional holds. -/
theorem C3_overflow_witness :
    "Other" ∈ finalTitles
        (resolvedTitles "A|B|C|D|E" (pipelineViewModels [] (fun _ => none) []))
        (pipelineViewModels [] (fun _ => none) []) ↔
      bucketList (resolvedTitles "A|B|C|D|E" (pipelineViewModels [] (fun _ => none) []))
        "Other" (pipelineViewModels [] (fun _ => none) []) ≠ [] := by
  have e : pipelineViewModels [] (fun _ => none) ([] : List RawTask) = [] := by
    simp [pipelineViewModels, sortTasks, buildViewModels]
  refine (C3_overflow "A|B|C|D|E" [] (fun _ => none) [] ?_).2.2.1
  rw [e, resolvedTitles, padColumns_eq]
  decide

end Build
